import Mathlib

/-!
Shallow embedding of the download-job orchestrator of the yt-xdownloader
backend (source: the Hono server, `src/unnamed/part_001`).  Pure functions
model the handlers attached to the yt-dlp / ffmpeg subprocesses, the
`/api/video/info` catalog builder, the `/api/video/file` result server and
the `activeDownloads` registry.  Machine strings are `String`/`List Char`,
JS numbers are `ℚ`/`Nat`/`Int`, JS `undefined`/`null` is `Option`.
-/

namespace YtX

/-! ### Generic string helpers (JS `String.prototype` operations) -/

/-- `sub` occurs as a contiguous infix of `l` (JS `String.prototype.includes`). -/
def hasInfixChars (sub : List Char) : List Char → Bool
  | [] => sub.isEmpty
  | c :: t => sub.isPrefixOf (c :: t) || hasInfixChars sub t

/-- JS `s.includes(sub)`. -/
def strIncludes (s sub : String) : Bool :=
  hasInfixChars sub.data s.data

/-- ASCII lower-casing of a string (sufficient to model a `/i` regex flag on
ASCII patterns, matching `Char.toLower` which only maps `A`-`Z`). -/
def lowerStr (s : String) : String :=
  ⟨s.data.map Char.toLower⟩

/-- JS `s.endsWith(suffix)` (case-sensitive). -/
def strEndsWith (s suffix : String) : Bool :=
  suffix.data.isSuffixOf s.data

/-! ### Job state: the `activeDownloads` record for one download
(`POST /api/video/download`) -/

/-- `status: 'downloading' | 'completed' | 'error' | 'converting'` -/
inductive DStatus
  | downloading
  | completed
  | error
  | converting
deriving DecidableEq

/-- One entry of the `activeDownloads` map (the subprocess handle is not
part of the observable state and is omitted). -/
structure Download where
  status : DStatus
  progress : Int
  fileName : Option String := none
  errorMsg : Option String := none
  eta : Option Nat := none
deriving DecidableEq

/-- The entry registered by `activeDownloads.set(downloadId, { status:
'downloading', progress: 0 })`. -/
def initDownload : Download :=
  { status := .downloading, progress := 0 }

/-- JS `Math.round` on a (non-negative, in our uses) number: `⌊q + 1/2⌋`. -/
def jsRound (q : ℚ) : Int :=
  ⌊q + 1 / 2⌋

/-- A parsed line of yt-dlp `--progress-template %(progress)j` output.
Lines that do not parse as a structured record (plain log text, invalid
JSON, records with another status tag) are `other` and leave the state
unchanged. -/
inductive ProgressRecord
  | downloading (downloaded_bytes : Option Nat) (total_bytes : Option Nat) (eta : Option Nat)
  | finished (filename : String)
  | other
deriving DecidableEq

/-- The `ytdlp.stdout.on('data')` handler, per structured record:
`downloading` sets `progress` to `Math.round(downloaded_bytes /
total_bytes * 100)` when both byte counts are truthy and to
`Math.round(0)` otherwise, and copies `eta`; `finished` sets
`status = 'completed'` and `fileName = progress.filename`. -/
def onStdoutRecord (d : Download) : ProgressRecord → Download
  | .downloading db tb e =>
      let percent : ℚ :=
        match db, tb with
        | some dn, some tn => if dn ≠ 0 ∧ tn ≠ 0 then (dn : ℚ) / (tn : ℚ) * 100 else 0
        | _, _ => 0
      { d with progress := jsRound percent, eta := e }
  | .finished fn => { d with status := .completed, fileName := some fn }
  | .other => d

/-- The regex `/\.(mp4|webm|mkv|m4a|opus|wav)$/i` used by the
`ytdlp.on('close')` handler to locate the produced file. -/
def mediaExtRegexTest (f : String) : Bool :=
  [".mp4", ".webm", ".mkv", ".m4a", ".opus", ".wav"].any
    (fun e => strEndsWith (lowerStr f) e)

/-- The `ytdlp.on('close')` handler.  `code` is the subprocess exit code
(`null` on signal), `files` the directory listing of the job's output
directory (a `readdirSync` failure behaves like an empty listing, which the
source's `catch` swallows).  On exit 0 the status is set to `completed` and
progress to 100; if the located file is a `.webm` of a video job, status
moves on to `converting` (ffmpeg is spawned; `ffmpegOnClose` finishes),
otherwise `fileName` is set to the located file. -/
def ytdlpOnClose (d : Download) (code : Option Int) (files : List String)
    (audioOnly : Bool) : Download :=
  if code = some 0 then
    let d1 : Download := { d with status := .completed, progress := 100 }
    match files.find? mediaExtRegexTest with
    | some file =>
        if strEndsWith file ".webm" && !audioOnly then
          { d1 with status := .converting }
        else
          { d1 with fileName := some file }
    | none => d1
  else
    { d with status := .error, errorMsg := some "Download failed" }

/-- The `ffmpeg.on('close')` handler of the WebM → MP4 conversion.
`rmOk` models whether `rmSync` on the original file succeeds.  Returns the
new state together with whether the original file was deleted. -/
def ffmpegOnClose (d : Download) (ffmpegCode : Option Int)
    (downloadedFile mp4FileName : String) (rmOk : Bool) : Download × Bool :=
  if ffmpegCode = some 0 then
    if rmOk then
      ({ d with fileName := some mp4FileName, status := .completed }, true)
    else
      ({ d with fileName := some downloadedFile, status := .completed }, false)
  else
    ({ d with fileName := some downloadedFile, status := .completed }, false)

/-! ### Result server (`GET /api/video/file/:downloadId`) -/

/-- The extension test of the file endpoint's `files.find(...)` (plain
`endsWith`, case-sensitive, and unlike `mediaExtRegexTest` it accepts
`.mp3` and `.aac`). -/
def servedExtTest (f : String) : Bool :=
  strEndsWith f ".mp4" || strEndsWith f ".webm" || strEndsWith f ".mkv" ||
  strEndsWith f ".m4a" || strEndsWith f ".opus" || strEndsWith f ".wav" ||
  strEndsWith f ".mp3" || strEndsWith f ".aac"

/-- `files.find(f => f.endsWith('.mp4') || ...)`. -/
def mediaFileFind (files : List String) : Option String :=
  files.find? servedExtTest

/-- `getContentType`: content type from the last `.`-separated component. -/
def getContentType (filename : String) : String :=
  let ext := lowerStr ((filename.splitOn ".").getLastD "")
  if ext = "mp4" then "video/mp4"
  else if ext = "webm" then "video/webm"
  else if ext = "mkv" then "video/x-matroska"
  else if ext = "m4a" then "audio/mp4"
  else if ext = "mp3" then "audio/mpeg"
  else if ext = "opus" then "audio/opus"
  else if ext = "wav" then "audio/wav"
  else if ext = "aac" then "audio/aac"
  else "application/octet-stream"

/-- JS regex `\s` character class (no `u` flag): ASCII whitespace plus the
Unicode whitespace code points and BOM. -/
def isJsSpace (c : Char) : Bool :=
  let v := c.toNat
  (9 ≤ v && v ≤ 13) || v = 32 || v = 0xa0 || v = 0x1680 ||
  (0x2000 ≤ v && v ≤ 0x200a) || v = 0x2028 || v = 0x2029 || v = 0x202f ||
  v = 0x205f || v = 0x3000 || v = 0xfeff

/-- JS regex `\w` character class: `[A-Za-z0-9_]`. -/
def isWordChar (c : Char) : Bool :=
  let v := c.toNat
  (65 ≤ v && v ≤ 90) || (97 ≤ v && v ≤ 122) || (48 ≤ v && v ≤ 57) || v = 95

/-- Global replacement of every maximal run of `p`-characters by the single
character `r` (models `.replace(/\s+/g, '_')` and `.replace(/_+/g, '_')`). -/
def collapseRuns (p : Char → Bool) (r : Char) : List Char → List Char
  | [] => []
  | c :: t =>
      if p c then r :: collapseRuns p r (t.dropWhile p)
      else c :: collapseRuns p r t
termination_by l => l.length
decreasing_by
  · simp only [List.length_cons]
    have := (List.dropWhile_sublist (l := t) p).length_le
    omega
  · simp

/-- JS `String.prototype.trim` (the trim set is contained in `isJsSpace`). -/
def jsTrim (l : List Char) : List Char :=
  ((l.dropWhile isJsSpace).reverse.dropWhile isJsSpace).reverse

/-- `sanitizeFilename`: `.replace(/[^\w\s.-]/g, '_')`, then
`.replace(/\s+/g, '_')`, then `.replace(/_+/g, '_')`, then `.trim()`. -/
def sanitizeFilename (filename : String) : String :=
  let s1 := filename.data.map
    (fun c => if isWordChar c || isJsSpace c || c == '.' || c == '-' then c else '_')
  let s2 := collapseRuns isJsSpace '_' s1
  let s3 := collapseRuns (fun c => c = '_') '_' s2
  ⟨jsTrim s3⟩

/-- The characters `encodeURIComponent` leaves unescaped:
`A-Z a-z 0-9 - _ . ! ~ * ' ( )`. -/
def isUriUnreserved (c : Char) : Bool :=
  let v := c.toNat
  (65 ≤ v && v ≤ 90) || (97 ≤ v && v ≤ 122) || (48 ≤ v && v ≤ 57) ||
  v = 45 || v = 95 || v = 46 || v = 33 || v = 126 || v = 42 || v = 39 ||
  v = 40 || v = 41

/-- UTF-8 encoding of one Unicode scalar value. -/
def utf8Char (c : Char) : List Nat :=
  let v := c.toNat
  if v < 0x80 then [v]
  else if v < 0x800 then [0xc0 + v / 0x40, 0x80 + v % 0x40]
  else if v < 0x10000 then
    [0xe0 + v / 0x1000, 0x80 + v / 0x40 % 0x40, 0x80 + v % 0x40]
  else
    [0xf0 + v / 0x40000, 0x80 + v / 0x1000 % 0x40, 0x80 + v / 0x40 % 0x40,
     0x80 + v % 0x40]

/-- UTF-8 encoding of a character sequence. -/
def utf8Encode (s : List Char) : List Nat :=
  s.foldr (fun c acc => utf8Char c ++ acc) []

/-- Upper-case hex digit of `n < 16`. -/
def hexDigitChar (n : Nat) : Char :=
  if n < 10 then Char.ofNat (48 + n) else Char.ofNat (65 + n - 10)

/-- `%XX` escape of one byte. -/
def pctByte (b : Nat) : List Char :=
  ['%', hexDigitChar (b / 16), hexDigitChar (b % 16)]

/-- JS `encodeURIComponent`: unreserved characters pass through, every
other character is replaced by the `%XX` escapes of its UTF-8 bytes. -/
def encodeURIComponent (s : String) : String :=
  ⟨s.data.foldr
    (fun c acc =>
      (if isUriUnreserved c then [c]
       else (utf8Char c).foldr (fun b a => pctByte b ++ a) []) ++ acc)
    []⟩

/-- Value of a hex digit character (both cases accepted). -/
def hexVal (c : Char) : Option Nat :=
  let v := c.toNat
  if 48 ≤ v ∧ v ≤ 57 then some (v - 48)
  else if 65 ≤ v ∧ v ≤ 70 then some (v - 55)
  else if 97 ≤ v ∧ v ≤ 102 then some (v - 87)
  else none

/-- One step of the first stage of `decodeURIComponent`: on `%` read two
hex digits into a byte (consuming 2 further characters), on any other
character emit its UTF-8 bytes. -/
def pctStep (c : Char) (t : List Char) : Option (List Nat × Nat) :=
  if c = '%' then
    match t with
    | h :: h' :: _ =>
        match hexVal h, hexVal h' with
        | some a, some b => some ([a * 16 + b], 2)
        | _, _ => none
    | _ => none
  else
    some (utf8Char c, 0)

/-- First stage of `decodeURIComponent`: turn `%XX` escapes into bytes and
every other character into its UTF-8 bytes. -/
def pctDecodeBytes : List Char → Option (List Nat)
  | [] => some []
  | c :: t =>
      match pctStep c t with
      | some (bs, k) => (fun rest => bs ++ rest) <$> pctDecodeBytes (t.drop k)
      | none => none
termination_by l => l.length
decreasing_by
  simp only [List.length_cons, List.length_drop]
  omega

/-- One step of UTF-8 decoding: given a lead byte `b` and the remaining
bytes `t`, return the decoded scalar value and the number of continuation
bytes consumed, or `none` on a malformed sequence. -/
def utf8DecodeStep (b : Nat) (t : List Nat) : Option (Nat × Nat) :=
  if b < 0x80 then some (b, 0)
  else if b < 0xc0 then none
  else if b < 0xe0 then
    match t with
    | c1 :: _ =>
        if 0x80 ≤ c1 ∧ c1 < 0xc0 then
          some ((b - 0xc0) * 0x40 + (c1 - 0x80), 1)
        else none
    | _ => none
  else if b < 0xf0 then
    match t with
    | c1 :: c2 :: _ =>
        if (0x80 ≤ c1 ∧ c1 < 0xc0) ∧ (0x80 ≤ c2 ∧ c2 < 0xc0) then
          some ((b - 0xe0) * 0x1000 + (c1 - 0x80) * 0x40 + (c2 - 0x80), 2)
        else none
    | _ => none
  else if b < 0xf8 then
    match t with
    | c1 :: c2 :: c3 :: _ =>
        if (0x80 ≤ c1 ∧ c1 < 0xc0) ∧ (0x80 ≤ c2 ∧ c2 < 0xc0) ∧
           (0x80 ≤ c3 ∧ c3 < 0xc0) then
          some ((b - 0xf0) * 0x40000 + (c1 - 0x80) * 0x1000 +
            (c2 - 0x80) * 0x40 + (c3 - 0x80), 3)
        else none
    | _ => none
  else none

/-- Second stage of `decodeURIComponent`: UTF-8 decoding of a byte list. -/
def utf8Decode : List Nat → Option (List Char)
  | [] => some []
  | b :: t =>
      match utf8DecodeStep b t with
      | some (v, k) => (fun cs => Char.ofNat v :: cs) <$> utf8Decode (t.drop k)
      | none => none
termination_by l => l.length
decreasing_by
  simp only [List.length_cons, List.length_drop]
  omega

/-- JS `decodeURIComponent` (lenient about overlong encodings, which the
encoder never produces). -/
def decodeURIComponent (s : String) : Option String :=
  ((pctDecodeBytes s.data).bind utf8Decode).map (fun cs => ⟨cs⟩)

/-- The `Content-Disposition` header value built by the file endpoint:
`attachment; filename="<ascii fallback>"; filename*=UTF-8''<encoded>`. -/
def contentDisposition (mediaFile : String) : String :=
  "attachment; filename=\"" ++ sanitizeFilename mediaFile ++
    "\"; filename*=UTF-8\x27\x27" ++ encodeURIComponent mediaFile

/-- Observable outcome of `GET /api/video/file/:downloadId`. -/
inductive FileResult
  | jsonError (msg : String) (code : Nat)
  | fileStream (contentType : String) (disposition : String)
deriving DecidableEq

/-- The file endpoint: `lookup` is `activeDownloads.get(downloadId)`,
`files` the directory listing of the job's output directory. -/
def fileEndpoint (lookup : Option Download) (files : List String) : FileResult :=
  match lookup with
  | none => .jsonError "Download not ready" 404
  | some d =>
      if d.status ≠ .completed then .jsonError "Download not ready" 404
      else
        match mediaFileFind files with
        | none => .jsonError "File not found" 404
        | some f => .fileStream (getContentType f) (contentDisposition f)

/-! ### The `activeDownloads` registry across the process lifetime

The source mutates the map in exactly one place: `activeDownloads.set`
with a fresh `randomUUID()` key at job start (plus field mutations on
existing entries).  No call site ever deletes an entry; the periodic
`cleanupOldFiles` only removes directories on disk. -/

/-- JS `Map.prototype.set`: replace the value under an existing key,
otherwise append a new entry (insertion order preserved). -/
def jsMapSet (m : List (String × Download)) (k : String) (v : Download) :
    List (String × Download) :=
  if m.any (fun p => p.1 == k) then
    m.map (fun p => if p.1 == k then (k, v) else p)
  else
    m ++ [(k, v)]

/-- The registry mutation performed by `POST /api/video/download`. -/
def startJobRegistry (m : List (String × Download)) (id : String) :
    List (String × Download) :=
  jsMapSet m id initDownload

/-- Registry contents after starting one job per id in `ids` (all other
endpoints only read the map). -/
def registryAfterStarts (ids : List String) : List (String × Download) :=
  ids.foldl startJobRegistry []

/-- `n` pairwise-distinct job ids (stand-ins for fresh `randomUUID()`s). -/
def idSeq (n : Nat) : List String :=
  (List.range n).map (fun i => ⟨List.replicate i 'a'⟩)

/-! ### Variant catalog builder (`POST /api/video/info`) -/

/-- One raw entry of yt-dlp's `--dump-json` `formats` array (the fields the
route reads; absent/null JSON fields are `none`). -/
structure RawFormat where
  format_id : String
  vcodec : Option String := none
  acodec : Option String := none
  height : Option Nat := none
  width : Option Nat := none
  ext : Option String := none
  format_note : Option String := none
  filesize : Option Nat := none
  filesize_approx : Option Nat := none
  tbr : Option ℚ := none
  fps : Option ℚ := none
  abr : Option ℚ := none
deriving DecidableEq

/-- JS truthiness of an optional string (`undefined` and `""` are falsy). -/
def truthyStr : Option String → Bool
  | some s => !(s == "")
  | none => false

/-- JS truthiness of an optional number (`undefined` and `0` are falsy). -/
def truthyNat : Option Nat → Bool
  | some n => !(n == 0)
  | none => false

/-- `majorResolutions = [2160, 1440, 1080, 720, 480, 360, 240, 144]`. -/
def majorResolutions : List Nat :=
  [2160, 1440, 1080, 720, 480, 360, 240, 144]

/-- `f.format_note?.includes('storyboard')` coerced to a boolean. -/
def noteStoryboard (f : RawFormat) : Bool :=
  match f.format_note with
  | some s => strIncludes s "storyboard"
  | none => false

/-- The strict filter of the primary pass: recognized video codec, height
on the major-resolution ladder, no storyboards, not `mhtml`. -/
def strictVideoFilter (f : RawFormat) : Bool :=
  truthyStr f.vcodec && !(f.vcodec == some "none") &&
  truthyNat f.height &&
  (match f.height with
   | some h => majorResolutions.contains h
   | none => false) &&
  !(noteStoryboard f) &&
  !(f.ext == some "mhtml")

/-- The raw JS value of a short-circuit expression like
`x && x !== 'none'`: when `x` is falsy, `&&` yields `x` itself (an absent
or `null` field, or the empty string), otherwise the boolean comparison
result.  `DecidableEq` models JS strict (in)equality `!==` on these
values: distinct kinds are strictly unequal, booleans compare by value.
(JSON `null` and an absent key are collapsed into `absent`; they are
strictly unequal to *each other* in JS, a distinction the `Option`-typed
raw fields of this model cannot feed in.) -/
inductive JsFlag
  | absent
  | emptyStr
  | bool (b : Bool)
deriving DecidableEq

/-- JS truthiness of a `JsFlag` (only `true` is truthy). -/
def jsTruthy : JsFlag → Bool
  | .bool b => b
  | _ => false

/-- The mapped shape the route returns for a video format.  `hasAudio`
holds the raw value of `f.acodec && f.acodec !== 'none'`, which the
source stores unconverted (it is a boolean only when `acodec` is
truthy). -/
structure VFormat where
  format_id : String
  resolution : String
  filesize : Nat
  ext : String
  vcodec : Option String
  acodec : Option String
  fps : Option ℚ
  tbr : Option ℚ
  format_note : Option String
  hasAudio : JsFlag
deriving DecidableEq

/-- JS `a || b || 0` over optional numbers: first truthy value, else 0. -/
def firstTruthyNat : List (Option Nat) → Nat
  | [] => 0
  | o :: t =>
      match o with
      | some n => if n == 0 then firstTruthyNat t else n
      | none => firstTruthyNat t

/-- The template `` `${height}p` `` (an absent height would render as
`"undefinedp"`; the filters guarantee presence). -/
def natLabel (h : Nat) : String :=
  toString h ++ "p"

/-- The raw value of `f.acodec && f.acodec !== 'none'`: the falsy operand
itself when `acodec` is absent/empty, else the boolean `acodec !== 'none'`. -/
def rawHasAudio (f : RawFormat) : JsFlag :=
  match f.acodec with
  | none => .absent
  | some s => if s = "" then .emptyStr else .bool (s != "none")

/-- The `.map(...)` of the primary pass. -/
def mapVideoFormat (f : RawFormat) : VFormat :=
  { format_id := f.format_id
    resolution :=
      match f.height with
      | some h => natLabel h
      | none => "undefinedp"
    filesize := firstTruthyNat [f.filesize, f.filesize_approx]
    ext :=
      match f.ext with
      | some e => if e == "" then "unknown" else e
      | none => "unknown"
    vcodec := f.vcodec
    acodec := f.acodec
    fps := f.fps
    tbr := f.tbr
    format_note := f.format_note
    hasAudio := rawHasAudio f }

/-- `allVideoFormats`: strict filter then map. -/
def allVideoFormats (formats : List RawFormat) : List VFormat :=
  (formats.filter strictVideoFilter).map mapVideoFormat

/-- One iteration of the grouping loop that builds `formatsByResolution`:
append `f` to its resolution's bucket, or open a new bucket (JS `Map`
insertion order). -/
def groupStep (acc : List (String × List VFormat)) (f : VFormat) :
    List (String × List VFormat) :=
  if acc.any (fun p => p.1 == f.resolution) then
    acc.map (fun p => if p.1 == f.resolution then (p.1, p.2 ++ [f]) else p)
  else
    acc ++ [(f.resolution, [f])]

/-- The `formatsByResolution` map: grouping by resolution label with JS
`Map` insertion order, appending within a bucket. -/
def groupByRes (l : List VFormat) : List (String × List VFormat) :=
  l.foldl groupStep []

/-- The raw value of `a.vcodec && a.vcodec.includes('avc')` (the
comparator's `aIsH264`): the falsy operand itself when `vcodec` is
absent/empty, else the boolean `includes` result. -/
def isH264Flag (g : VFormat) : JsFlag :=
  match g.vcodec with
  | none => .absent
  | some v => if v = "" then .emptyStr else .bool (strIncludes v "avc")

/-- `(x.tbr || 0)`. -/
def tbr0 (g : VFormat) : ℚ :=
  g.tbr.getD 0

/-- The comparator of `sortedFormats` inside a resolution bucket:
audio first, then H.264, then (among video-only) MP4, then bitrate.
The first two guards are JS strict inequality `!==` on the *raw* truthy
values (`a.hasAudio !== b.hasAudio`, `aIsH264 !== bIsH264`); the ternary
results and the `!a.hasAudio` tests use truthiness. -/
def cmpFormat (a b : VFormat) : ℚ :=
  if a.hasAudio ≠ b.hasAudio then (if jsTruthy b.hasAudio then 1 else -1)
  else if isH264Flag a ≠ isH264Flag b then (if jsTruthy (isH264Flag b) then 1 else -1)
  else if (!jsTruthy a.hasAudio && !jsTruthy b.hasAudio) &&
      (a.ext == "mp4") && !(b.ext == "mp4") then -1
  else if (!jsTruthy a.hasAudio && !jsTruthy b.hasAudio) &&
      (b.ext == "mp4") && !(a.ext == "mp4") then 1
  else tbr0 b - tbr0 a

/-- `a` sorts no later than `b` under `cmpFormat` (JS sort order). -/
def fmtLE (a b : VFormat) : Prop :=
  cmpFormat a b ≤ 0

instance : DecidableRel fmtLE := fun a b => by
  unfold fmtLE; infer_instance

/-- `sortedFormats[0]`: head of the bucket sorted by the comparator. -/
def pickBest (fs : List VFormat) : Option VFormat :=
  (List.insertionSort fmtLE fs).head?

/-- JS `parseInt` restricted to what the route feeds it: value of the
leading decimal-digit prefix, `none` (i.e. `NaN`) when there is none. -/
def jsParseInt (s : String) : Option Nat :=
  let ds := s.data.takeWhile Char.isDigit
  if ds.isEmpty then none
  else some (ds.foldl (fun n c => n * 10 + (c.toNat - 48)) 0)

/-- Numeric sort key of a resolution label (`NaN` collapsed to 0; every
label reaching the final sort parses, so the collapse is never exercised). -/
def pn (s : String) : ℚ :=
  match jsParseInt s with
  | some n => n
  | none => 0

/-- Sort order of the final `videoFormats.sort((a, b) =>
parseInt(b.resolution) - parseInt(a.resolution))`. -/
def resLE (a b : VFormat) : Prop :=
  pn b.resolution ≤ pn a.resolution

instance : DecidableRel resLE := fun a b => by
  unfold resLE; infer_instance

/-- The primary pass: group, pick one representative per bucket, sort by
resolution descending. -/
def videoFormatsPrimary (formats : List RawFormat) : List VFormat :=
  List.insertionSort resLE
    ((groupByRes (allVideoFormats formats)).filterMap (fun p => pickBest p.2))

/-- The fallback filter: any entry with a video codec and known width and
height. -/
def fallbackFilter (f : RawFormat) : Bool :=
  truthyStr f.vcodec && !(f.vcodec == some "none") &&
  truthyNat f.width && truthyNat f.height

/-- The fallback `.map(...)` (its resolution template is conditional on
height truthiness). -/
def mapFallbackFormat (f : RawFormat) : VFormat :=
  { format_id := f.format_id
    resolution :=
      if truthyNat f.height then
        match f.height with
        | some h => natLabel h
        | none => "undefinedp"
      else
        (match f.width with
         | some w => toString w
         | none => "undefined") ++ "x" ++
        (match f.height with
         | some h => toString h
         | none => "undefined")
    filesize := firstTruthyNat [f.filesize, f.filesize_approx]
    ext :=
      match f.ext with
      | some e => if e == "" then "unknown" else e
      | none => "unknown"
    vcodec := f.vcodec
    acodec := f.acodec
    fps := f.fps
    tbr := f.tbr
    format_note := f.format_note
    hasAudio := rawHasAudio f }

/-- `fallbackVideoFormats`: loosened filter, mapped, capped at 8, in
engine order (no sort). -/
def fallbackVideoFormats (formats : List RawFormat) : List VFormat :=
  ((formats.filter fallbackFilter).map mapFallbackFormat).take 8

/-- The video entries of the catalog result: the primary pass, or the
fallback pass when the primary pass is empty. -/
def catalogVideoFormats (formats : List RawFormat) : List VFormat :=
  let primary := videoFormatsPrimary formats
  if primary.isEmpty then fallbackVideoFormats formats else primary

/-- The spec's tie-break chain, worded as in §4.1: (a) embedded audio
first, (b) widely-compatible (H.264/avc) codec family first, (c) among
video-only entries MP4 container first, (d) higher reported bitrate.
`chainGE a b` says `a` is at least as preferred as `b`. -/
def chainGE (a b : VFormat) : Prop :=
  if jsTruthy a.hasAudio ≠ jsTruthy b.hasAudio then jsTruthy a.hasAudio = true
  else if jsTruthy (isH264Flag a) ≠ jsTruthy (isH264Flag b) then
    jsTruthy (isH264Flag a) = true
  else if jsTruthy a.hasAudio = false ∧ ¬((a.ext = "mp4") ↔ (b.ext = "mp4")) then
    a.ext = "mp4"
  else tbr0 b ≤ tbr0 a

instance : DecidableRel chainGE := fun a b => by
  unfold chainGE; infer_instance

/-- Packed lexicographic key of the boolean part of the comparator
(proof device for totality/transitivity on buckets whose flags are
genuine booleans). -/
def natKey (g : VFormat) : Nat :=
  (if jsTruthy g.hasAudio then 4 else 0) + (if jsTruthy (isH264Flag g) then 2 else 0) +
  (if jsTruthy g.hasAudio then 1 else if g.ext == "mp4" then 1 else 0)

/-- Both comparator inputs of a format are genuine booleans: its
`hasAudio` value and its `aIsH264` value.  This holds for every format
whose `acodec` and `vcodec` are present and nonempty (the strict filter
guarantees it for `vcodec` but not for `acodec`). -/
def boolFlags (g : VFormat) : Prop :=
  (∃ b, g.hasAudio = JsFlag.bool b) ∧ (∃ b, isH264Flag g = JsFlag.bool b)

instance (g : VFormat) : Decidable (boolFlags g) := by
  unfold boolFlags
  infer_instance

/-! ### Sample inputs (for concrete instantiations) -/

/-- A 1080p H.264/mp4 entry that carries embedded audio. -/
def sampleAvcAudio : VFormat :=
  { format_id := "g1", resolution := "1080p", filesize := 0, ext := "mp4"
    vcodec := some "avc1.64002a", acodec := some "mp4a.40.2", fps := none
    tbr := some 2000, format_note := none, hasAudio := .bool true }

/-- A 1080p VP9/webm video-only entry (`acodec: 'none'`) with a higher
bitrate. -/
def sampleVp9Muted : VFormat :=
  { format_id := "g2", resolution := "1080p", filesize := 0, ext := "webm"
    vcodec := some "vp9", acodec := some "none", fps := none
    tbr := some 3000, format_note := none, hasAudio := .bool false }

/-- A 1080p VP9/webm entry whose `acodec` field is missing, so its stored
`hasAudio` is the raw falsy `undefined`, not the boolean `false`. -/
def sampleVp9Absent : VFormat :=
  { format_id := "u1", resolution := "1080p", filesize := 0, ext := "webm"
    vcodec := some "vp9", acodec := none, fps := none
    tbr := some 100, format_note := none, hasAudio := .absent }

/-- A 1080p H.264/mp4 entry with `acodec: 'none'` (stored `hasAudio` is
the boolean `false`) and a much higher bitrate. -/
def sampleAvcNone : VFormat :=
  { format_id := "u2", resolution := "1080p", filesize := 0, ext := "mp4"
    vcodec := some "avc1.4d401f", acodec := some "none", fps := none
    tbr := some 3000, format_note := none, hasAudio := .bool false }

/-- A raw 1080p H.264 entry that passes the strict filter. -/
def rawLadder1080 : RawFormat :=
  { format_id := "r1080", vcodec := some "avc1.64002a", acodec := some "mp4a.40.2"
    height := some 1080, width := some 1920, ext := some "mp4", tbr := some 2000 }

/-- A raw 720p H.264 entry that passes the strict filter. -/
def rawLadder720 : RawFormat :=
  { format_id := "r720", vcodec := some "avc1.4d401f", acodec := some "mp4a.40.2"
    height := some 720, width := some 1280, ext := some "mp4", tbr := some 1200 }

/-- A raw entry with an off-ladder height (500), rejected by the strict
filter but kept by the fallback filter. -/
def rawOff500a : RawFormat :=
  { format_id := "o500a", vcodec := some "vp9", acodec := some "none"
    height := some 500, width := some 888, ext := some "webm", tbr := some 900 }

/-- A second off-ladder entry at height 600, listed after the 500 one. -/
def rawOff600 : RawFormat :=
  { format_id := "o600", vcodec := some "vp9", acodec := some "none"
    height := some 600, width := some 1066, ext := some "webm", tbr := some 1000 }

/-- A third off-ladder entry that repeats height 500. -/
def rawOff500b : RawFormat :=
  { format_id := "o500b", vcodec := some "vp9", acodec := some "none"
    height := some 500, width := some 888, ext := some "webm", tbr := some 800 }

/-! ### Theorems -/

theorem jsRound_nonneg {q : ℚ} (h : 0 ≤ q) : 0 ≤ jsRound q := by
  unfold jsRound
  have : (0 : Int) = ⌊(0 : ℚ) + 1 / 2⌋ := by norm_num
  rw [this]
  exact Int.floor_le_floor (by linarith)

theorem jsRound_mono {p q : ℚ} (h : p ≤ q) : jsRound p ≤ jsRound q :=
  Int.floor_le_floor (by linarith)

/-- C2 counterexample: a `finished` record alone moves the status away
from `downloading` to `completed`, contradicting "leaves the job's status
field unchanged". -/
theorem claim_C2_counterexample :
    (onStdoutRecord initDownload (.finished "video.mp4")).status = .completed ∧
    initDownload.status = .downloading ∧
    (onStdoutRecord initDownload (.finished "video.mp4")).status ≠
      initDownload.status := by
  refine ⟨rfl, rfl, by decide⟩

/-- C2 (amended): on a `finished` record the stdout handler records the
produced file name AND itself sets the status to `completed` (the
subprocess-exit handler is not the only writer of the status field);
progress and eta are left unchanged. -/
theorem claim_C2_amended (d : Download) (fn : String) :
    (onStdoutRecord d (.finished fn)).fileName = some fn ∧
    (onStdoutRecord d (.finished fn)).status = .completed ∧
    (onStdoutRecord d (.finished fn)).progress = d.progress ∧
    (onStdoutRecord d (.finished fn)).eta = d.eta :=
  ⟨rfl, rfl, rfl, rfl⟩

/-- C3 counterexample: after reaching 42%, a `downloading` record with an
unknown byte count resets the stored percent to 0 instead of leaving it
unchanged. -/
theorem claim_C3_counterexample :
    (onStdoutRecord initDownload (.downloading (some 42) (some 100) none)).progress = 42 ∧
    (onStdoutRecord
      (onStdoutRecord initDownload (.downloading (some 42) (some 100) none))
      (.downloading none (some 100) none)).progress = 0 := by
  constructor
  · simp only [onStdoutRecord]
    norm_num [jsRound]
  · simp only [onStdoutRecord]
    norm_num [jsRound]

/-- C3 (amended): on a `downloading` record the handler sets percent to
`round(downloaded/total*100)` when both byte counts are known and
positive, and otherwise sets the stored percent to 0 (not "leaves it
unchanged"); eta is copied verbatim and the status is untouched. -/
theorem claim_C3_amended (d : Download) (db tb e : Option Nat) :
    ((∀ dn tn, db = some dn → tb = some tn → dn ≠ 0 → tn ≠ 0 →
        (onStdoutRecord d (.downloading db tb e)).progress =
          jsRound ((dn : ℚ) / (tn : ℚ) * 100)) ∧
     ((db = none ∨ db = some 0 ∨ tb = none ∨ tb = some 0) →
        (onStdoutRecord d (.downloading db tb e)).progress = 0)) ∧
    (onStdoutRecord d (.downloading db tb e)).eta = e ∧
    (onStdoutRecord d (.downloading db tb e)).status = d.status := by
  refine ⟨⟨?_, ?_⟩, rfl, rfl⟩
  · rintro dn tn rfl rfl hdn htn
    simp only [onStdoutRecord]
    rw [if_pos ⟨hdn, htn⟩]
  · intro h
    rcases db with _ | dn
    · rcases tb with _ | tn <;> (simp only [onStdoutRecord]; norm_num [jsRound])
    · rcases tb with _ | tn
      · simp only [onStdoutRecord]; norm_num [jsRound]
      · have hne : ¬(dn ≠ 0 ∧ tn ≠ 0) := by
          rcases h with h | h | h | h <;> simp_all
        simp only [onStdoutRecord]
        rw [if_neg hne]
        norm_num [jsRound]


/-- C3 witness: `claim_C3_amended` instantiated at a concrete record. -/
theorem claim_C3_witness :
    (onStdoutRecord initDownload (.downloading (some 30) (some 60) (some 5))).progress =
      jsRound ((30 : ℚ) / (60 : ℚ) * 100) :=
  (claim_C3_amended initDownload (some 30) (some 60) (some 5)).1.1 30 60 rfl rfl
    (by norm_num) (by norm_num)

/-- C1 counterexample: while the status stays `downloading`, the reported
progress drops from 50 to 0 when a `downloading` record arrives without a
total byte count, so `progressPercent` is not monotonically
non-decreasing. -/
theorem claim_C1_counterexample :
    (onStdoutRecord initDownload (.downloading (some 50) (some 100) none)).status =
      .downloading ∧
    (onStdoutRecord
      (onStdoutRecord initDownload (.downloading (some 50) (some 100) none))
      (.downloading (some 10) none none)).status = .downloading ∧
    (onStdoutRecord initDownload (.downloading (some 50) (some 100) none)).progress = 50 ∧
    (onStdoutRecord
      (onStdoutRecord initDownload (.downloading (some 50) (some 100) none))
      (.downloading (some 10) none none)).progress = 0 := by
  refine ⟨rfl, rfl, ?_, ?_⟩
  · simp only [onStdoutRecord]; norm_num [jsRound]
  · simp only [onStdoutRecord]; norm_num [jsRound]

/-- C1 (amended): progress is non-decreasing across consecutive
`downloading` records that report a non-decreasing downloaded count
against the same known total (a record with missing or zero byte counts
instead resets progress to 0); the subprocess-exit handler on exit code 0
forces progress to 100; and the first transition to `completed` can
instead happen already at a `finished` record, which leaves progress at
its previous value (not necessarily 100). -/
theorem claim_C1_amended :
    (∀ (d : Download) (dn dn' tn : Nat) (e1 e2 : Option Nat), dn ≤ dn' →
      (onStdoutRecord d (.downloading (some dn) (some tn) e1)).progress ≤
      (onStdoutRecord (onStdoutRecord d (.downloading (some dn) (some tn) e1))
        (.downloading (some dn') (some tn) e2)).progress) ∧
    (∀ (d : Download) (files : List String) (ao : Bool),
      (ytdlpOnClose d (some 0) files ao).progress = 100) ∧
    (∀ (d : Download) (fn : String),
      (onStdoutRecord d (.finished fn)).status = .completed ∧
      (onStdoutRecord d (.finished fn)).progress = d.progress) := by
  refine ⟨?_, ?_, fun d fn => ⟨rfl, rfl⟩⟩
  · intro d dn dn' tn e1 e2 hle
    simp only [onStdoutRecord]
    by_cases htn : tn = 0
    · subst htn
      norm_num
    · by_cases hdn : dn = 0
      · subst hdn
        rw [if_neg (by simp)]
        have h0 : jsRound 0 = 0 := by norm_num [jsRound]
        rw [h0]
        apply jsRound_nonneg
        split
        · positivity
        · exact le_refl 0
      · have hdn' : dn' ≠ 0 := by omega
        rw [if_pos ⟨hdn, htn⟩, if_pos ⟨hdn', htn⟩]
        apply jsRound_mono
        have hleq : (dn : ℚ) ≤ (dn' : ℚ) := by exact_mod_cast hle
        have htn' : (0 : ℚ) < (tn : ℚ) := by positivity
        gcongr
  · intro d files ao
    unfold ytdlpOnClose
    split
    · dsimp only
      split
      · split <;> rfl
      · rfl
    · simp_all

/-- C1 witness: `claim_C1_amended` instantiated at concrete records. -/
theorem claim_C1_witness :
    (onStdoutRecord initDownload (.downloading (some 10) (some 100) none)).progress ≤
    (onStdoutRecord (onStdoutRecord initDownload (.downloading (some 10) (some 100) none))
      (.downloading (some 60) (some 100) none)).progress :=
  claim_C1_amended.1 initDownload 10 60 100 none none (by norm_num)

/-- C4 code-bug evidence: for an audio-only job that produced `track.mp3`
(the `--audio-format mp3` pipeline's own output), the exit handler's
regex does not accept `.mp3`, so the file is not located and `fileName`
stays unset, even though the serving endpoint's own extension list (and
the spec's accepted set) includes mp3/aac; percent is still forced to 100
and the status still becomes `completed`. -/
theorem claim_C4_code_bug :
    mediaExtRegexTest "track.mp3" = false ∧
    servedExtTest "track.mp3" = true ∧
    (ytdlpOnClose initDownload (some 0) ["track.mp3"] true).fileName = none ∧
    (ytdlpOnClose initDownload (some 0) ["track.mp3"] true).progress = 100 ∧
    (ytdlpOnClose initDownload (some 0) ["track.mp3"] true).status = .completed :=
  ⟨by decide, by decide, by decide, by decide, by decide⟩

/-- C5 counterexample: a jobId that was never created and an existing job
that is still downloading produce the *identical* response, so the two
outcomes are not distinguishable to the caller. -/
theorem claim_C5_counterexample :
    fileEndpoint none ["a.mp4"] = fileEndpoint (some initDownload) ["a.mp4"] ∧
    fileEndpoint none ["a.mp4"] = .jsonError "Download not ready" 404 :=
  ⟨by decide, by decide⟩

/-- C5 (amended): both a missing job and an existing but not-completed job
yield the same 404 `Download not ready` response (not distinguishable); a
distinct 404 `File not found` arises only for a completed job whose output
directory has no matching media file. -/
theorem claim_C5_amended (d : Download) (files files2 : List String)
    (h : d.status ≠ .completed) (h2 : mediaFileFind files2 = none) :
    fileEndpoint (some d) files = .jsonError "Download not ready" 404 ∧
    fileEndpoint none files = .jsonError "Download not ready" 404 ∧
    fileEndpoint (some { d with status := .completed }) files2 =
      .jsonError "File not found" 404 := by
  refine ⟨?_, rfl, ?_⟩
  · dsimp only [fileEndpoint]
    rw [if_pos h]
  · dsimp only [fileEndpoint]
    rw [if_neg (by simp), h2]

/-- C5 witness: `claim_C5_amended` instantiated at concrete states. -/
theorem claim_C5_witness :
    fileEndpoint (some initDownload) ["a.mp4"] = .jsonError "Download not ready" 404 ∧
    fileEndpoint none ["a.mp4"] = .jsonError "Download not ready" 404 ∧
    fileEndpoint (some { initDownload with status := .completed }) ["readme.txt"] =
      .jsonError "File not found" 404 :=
  claim_C5_amended initDownload ["a.mp4"] ["readme.txt"] (by decide) (by decide)

/-- C8: when the ffmpeg transcode subprocess exits non-zero, the original
file is kept (not deleted), `fileName` is set to the original downloaded
file, and the status becomes `completed`, never `error`. -/
theorem claim_C8 (d : Download) (code : Option Int) (orig mp4f : String)
    (rmOk : Bool) (h : code ≠ some 0) :
    (ffmpegOnClose d code orig mp4f rmOk).1.fileName = some orig ∧
    (ffmpegOnClose d code orig mp4f rmOk).1.status = .completed ∧
    (ffmpegOnClose d code orig mp4f rmOk).1.status ≠ .error ∧
    (ffmpegOnClose d code orig mp4f rmOk).2 = false := by
  unfold ffmpegOnClose
  rw [if_neg h]
  refine ⟨rfl, rfl, ?_, rfl⟩
  intro hcon
  exact DStatus.noConfusion hcon

/-- C8 witness: `claim_C8` at a concrete failing transcode. -/
theorem claim_C8_witness :
    (ffmpegOnClose initDownload (some 1) "video.webm" "video.mp4" true).1.fileName =
      some "video.webm" ∧
    (ffmpegOnClose initDownload (some 1) "video.webm" "video.mp4" true).1.status =
      .completed ∧
    (ffmpegOnClose initDownload (some 1) "video.webm" "video.mp4" true).1.status ≠
      .error ∧
    (ffmpegOnClose initDownload (some 1) "video.webm" "video.mp4" true).2 = false :=
  claim_C8 initDownload (some 1) "video.webm" "video.mp4" true (by decide)

theorem jsMapSet_fresh (m : List (String × Download)) (k : String) (v : Download)
    (h : ∀ p ∈ m, p.1 ≠ k) : jsMapSet m k v = m ++ [(k, v)] := by
  unfold jsMapSet
  have hc : (m.any (fun p => p.1 == k)) = false := by
    rw [List.any_eq_false]
    intro p hp
    simpa using h p hp
  simp [hc]

theorem foldl_startJob_length (ids : List String) :
    ∀ (m : List (String × Download)), ids.Nodup →
      (∀ i ∈ ids, ∀ p ∈ m, p.1 ≠ i) →
      (ids.foldl startJobRegistry m).length = m.length + ids.length := by
  induction ids with
  | nil => intro m _ _; simp
  | cons id rest ih =>
    intro m hnd hfresh
    have hfr : ∀ p ∈ m, p.1 ≠ id := hfresh id (by simp)
    have hset : startJobRegistry m id = m ++ [(id, initDownload)] :=
      jsMapSet_fresh m id _ hfr
    simp only [List.foldl_cons, startJobRegistry] at hset ⊢
    rw [hset]
    rw [ih (m ++ [(id, initDownload)]) (List.Nodup.of_cons hnd) ?_]
    · simp only [List.length_append, List.length_cons, List.length_nil]
      omega
    · intro i hi p hp
      rcases List.mem_append.mp hp with hp | hp
      · exact hfresh i (List.mem_cons_of_mem _ hi) p hp
      · have hid : id ∉ rest := (List.nodup_cons.mp hnd).1
        have hpe : p = (id, initDownload) := by simpa using hp
        rw [hpe]
        intro hcon
        have hii : id = i := hcon
        rw [hii] at hid
        exact hid hi

theorem idSeq_nodup (n : Nat) : (idSeq n).Nodup := by
  unfold idSeq
  refine List.Nodup.map ?_ (List.nodup_range n)
  intro a b h
  have hdata : List.replicate a 'a' = List.replicate b 'a' := congrArg String.data h
  have := congrArg List.length hdata
  simpa using this

theorem registry_length_eq (n : Nat) :
    (registryAfterStarts (idSeq n)).length = n := by
  unfold registryAfterStarts
  rw [foldl_startJob_length (idSeq n) [] (idSeq_nodup n) (by intro i _ p hp; simp at hp)]
  simp [idSeq]

/-- C10 code-bug evidence: no code path ever removes an `activeDownloads`
entry, so after `n` started jobs the registry holds exactly `n` entries,
and its size is not bounded independently of the number of jobs ever
started — no TTL, max-entry cap, or lazy drop exists. -/
theorem claim_C10_code_bug :
    (∀ n : Nat, (registryAfterStarts (idSeq n)).length = n) ∧
    ¬ ∃ B : Nat, ∀ n : Nat, (registryAfterStarts (idSeq n)).length ≤ B := by
  refine ⟨registry_length_eq, ?_⟩
  rintro ⟨B, hB⟩
  have h1 := hB (B + 1)
  rw [registry_length_eq] at h1
  omega

theorem char_toNat_lt (c : Char) : c.toNat < 0x110000 := by
  rcases c.valid with h | ⟨h1, h2⟩ <;> (simp only [Char.toNat]; omega)

theorem utf8Decode_cons (b : Nat) (t : List Nat) :
    utf8Decode (b :: t) =
      match utf8DecodeStep b t with
      | some (v, k) => (fun cs => Char.ofNat v :: cs) <$> utf8Decode (t.drop k)
      | none => none := by
  rw [utf8Decode]

theorem utf8Decode_utf8Char (c : Char) (bs : List Nat) :
    utf8Decode (utf8Char c ++ bs) = (fun cs => c :: cs) <$> utf8Decode bs := by
  have hlt := char_toNat_lt c
  simp only [utf8Char]
  by_cases h1 : c.toNat < 0x80
  · rw [if_pos h1]
    show utf8Decode (c.toNat :: bs) = _
    rw [utf8Decode_cons]
    unfold utf8DecodeStep
    rw [if_pos h1]
    dsimp only [List.drop]
    rw [Char.ofNat_toNat]
  · rw [if_neg h1]
    by_cases h2 : c.toNat < 0x800
    · rw [if_pos h2]
      show utf8Decode (_ :: _ :: bs) = _
      rw [utf8Decode_cons]
      unfold utf8DecodeStep
      rw [if_neg (by omega), if_neg (by omega), if_pos (by omega)]
      dsimp only
      rw [if_pos (by constructor <;> omega)]
      dsimp only [List.drop]
      have hv : (0xc0 + c.toNat / 0x40 - 0xc0) * 0x40 + (0x80 + c.toNat % 0x40 - 0x80) =
          c.toNat := by omega
      rw [hv, Char.ofNat_toNat]
    · rw [if_neg h2]
      by_cases h3 : c.toNat < 0x10000
      · rw [if_pos h3]
        show utf8Decode (_ :: _ :: _ :: bs) = _
        rw [utf8Decode_cons]
        unfold utf8DecodeStep
        rw [if_neg (by omega), if_neg (by omega), if_neg (by omega), if_pos (by omega)]
        dsimp only
        rw [if_pos (by refine ⟨⟨?_, ?_⟩, ?_, ?_⟩ <;> omega)]
        dsimp only [List.drop]
        have hv : (0xe0 + c.toNat / 0x1000 - 0xe0) * 0x1000 +
            (0x80 + c.toNat / 0x40 % 0x40 - 0x80) * 0x40 +
            (0x80 + c.toNat % 0x40 - 0x80) = c.toNat := by omega
        rw [hv, Char.ofNat_toNat]
      · rw [if_neg h3]
        show utf8Decode (_ :: _ :: _ :: _ :: bs) = _
        rw [utf8Decode_cons]
        unfold utf8DecodeStep
        rw [if_neg (by omega), if_neg (by omega), if_neg (by omega), if_neg (by omega),
          if_pos (by omega)]
        dsimp only
        rw [if_pos (by refine ⟨⟨?_, ?_⟩, ⟨?_, ?_⟩, ?_, ?_⟩ <;> omega)]
        dsimp only [List.drop]
        have hv : (0xf0 + c.toNat / 0x40000 - 0xf0) * 0x40000 +
            (0x80 + c.toNat / 0x1000 % 0x40 - 0x80) * 0x1000 +
            (0x80 + c.toNat / 0x40 % 0x40 - 0x80) * 0x40 +
            (0x80 + c.toNat % 0x40 - 0x80) = c.toNat := by omega
        rw [hv, Char.ofNat_toNat]

theorem utf8Decode_utf8Encode (s : List Char) : utf8Decode (utf8Encode s) = some s := by
  induction s with
  | nil =>
    show utf8Decode [] = some []
    rw [utf8Decode]
  | cons c t ih =>
    have hc : utf8Encode (c :: t) = utf8Char c ++ utf8Encode t := rfl
    rw [hc, utf8Decode_utf8Char, ih]
    rfl

theorem pctDecodeBytes_cons (c : Char) (t : List Char) :
    pctDecodeBytes (c :: t) =
      match pctStep c t with
      | some (bs, k) => (fun rest => bs ++ rest) <$> pctDecodeBytes (t.drop k)
      | none => none := by
  rw [pctDecodeBytes]

theorem pctStep_nonpct (c : Char) (t : List Char) (hc : ¬ c = '%') :
    pctStep c t = some (utf8Char c, 0) := by
  unfold pctStep
  rw [if_neg hc]

theorem hexVal_hexDigitChar (n : Nat) (h : n < 16) :
    hexVal (hexDigitChar n) = some n := by
  interval_cases n <;> decide

theorem pctDecodeBytes_pctByte (b : Nat) (hb : b < 256) (rest : List Char) :
    pctDecodeBytes (pctByte b ++ rest) = (fun bs => b :: bs) <$> pctDecodeBytes rest := by
  show pctDecodeBytes ('%' :: hexDigitChar (b / 16) :: hexDigitChar (b % 16) :: rest) = _
  rw [pctDecodeBytes_cons]
  unfold pctStep
  rw [if_pos rfl]
  dsimp only
  rw [hexVal_hexDigitChar (b / 16) (by omega), hexVal_hexDigitChar (b % 16) (by omega)]
  dsimp only [List.drop]
  have hbb : b / 16 * 16 + b % 16 = b := by omega
  rw [hbb]
  rfl

theorem utf8Char_lt_256 (c : Char) : ∀ b ∈ utf8Char c, b < 256 := by
  have hlt := char_toNat_lt c
  intro b hb
  simp only [utf8Char] at hb
  split_ifs at hb with h1 h2 h3
  · simp only [List.mem_singleton] at hb
    omega
  · simp only [List.mem_cons, List.not_mem_nil, or_false] at hb
    rcases hb with rfl | rfl <;> omega
  · simp only [List.mem_cons, List.not_mem_nil, or_false] at hb
    rcases hb with rfl | rfl | rfl <;> omega
  · simp only [List.mem_cons, List.not_mem_nil, or_false] at hb
    rcases hb with rfl | rfl | rfl | rfl <;> omega

theorem pctBytesFold (bs : List Nat) (hbs : ∀ b ∈ bs, b < 256) (rest : List Char) :
    pctDecodeBytes (bs.foldr (fun b a => pctByte b ++ a) [] ++ rest) =
      (fun r => bs ++ r) <$> pctDecodeBytes rest := by
  induction bs with
  | nil =>
    simp only [List.foldr_nil, List.nil_append]
    cases pctDecodeBytes rest <;> rfl
  | cons b bs' ih =>
    simp only [List.foldr_cons, List.append_assoc]
    rw [pctDecodeBytes_pctByte b (hbs b (by simp)) _]
    rw [ih (fun x hx => hbs x (by simp [hx]))]
    cases pctDecodeBytes rest <;> rfl

theorem uriUnreserved_props (c : Char) (h : isUriUnreserved c = true) :
    c.toNat < 128 ∧ ¬ c = '%' := by
  unfold isUriUnreserved at h
  simp only [Bool.or_eq_true, Bool.and_eq_true, decide_eq_true_eq] at h
  have harith : c.toNat < 128 ∧ c.toNat ≠ 37 := by omega
  refine ⟨harith.1, ?_⟩
  intro hc
  have h37 : c.toNat = 37 := by rw [hc]; decide
  exact harith.2 h37

theorem pctDecodeBytes_encode (l : List Char) :
    pctDecodeBytes (l.foldr
      (fun c acc =>
        (if isUriUnreserved c then [c]
         else (utf8Char c).foldr (fun b a => pctByte b ++ a) []) ++ acc) []) =
      some (utf8Encode l) := by
  induction l with
  | nil =>
    rw [List.foldr_nil, pctDecodeBytes]
    rfl
  | cons c t ih =>
    rw [List.foldr_cons]
    by_cases hu : isUriUnreserved c = true
    · rw [if_pos hu, List.singleton_append]
      rw [pctDecodeBytes_cons, pctStep_nonpct c _ (uriUnreserved_props c hu).2]
      dsimp only
      rw [List.drop_zero, ih]
      rfl
    · rw [if_neg hu]
      rw [pctBytesFold (utf8Char c) (utf8Char_lt_256 c) _, ih]
      rfl

theorem decodeURIComponent_encodeURIComponent (s : String) :
    decodeURIComponent (encodeURIComponent s) = some s := by
  unfold decodeURIComponent
  have hdata : (encodeURIComponent s).data = s.data.foldr
      (fun c acc =>
        (if isUriUnreserved c then [c]
         else (utf8Char c).foldr (fun b a => pctByte b ++ a) []) ++ acc) [] := rfl
  rw [hdata, pctDecodeBytes_encode]
  show (utf8Decode (utf8Encode s.data)).map _ = some s
  rw [utf8Decode_utf8Encode]
  rfl

theorem mem_collapseRuns_aux (p : Char → Bool) (r : Char) :
    ∀ (n : Nat) (l : List Char), l.length ≤ n →
      ∀ c ∈ collapseRuns p r l, c = r ∨ (c ∈ l ∧ p c = false) := by
  intro n
  induction n with
  | zero =>
    intro l hl c hc
    have hnil : l = [] := by
      cases l with
      | nil => rfl
      | cons a t => simp at hl
    subst hnil
    rw [collapseRuns] at hc
    simp at hc
  | succ n ih =>
    intro l hl c hc
    cases l with
    | nil =>
      rw [collapseRuns] at hc
      simp at hc
    | cons a t =>
      rw [collapseRuns] at hc
      by_cases hp : p a = true
      · rw [if_pos hp] at hc
        rcases List.mem_cons.mp hc with rfl | hc'
        · exact Or.inl rfl
        · have hlen : (t.dropWhile p).length ≤ n := by
            have := (List.dropWhile_sublist (l := t) p).length_le
            simp only [List.length_cons] at hl
            omega
          rcases ih (t.dropWhile p) hlen c hc' with h | ⟨hm, hpc⟩
          · exact Or.inl h
          · exact Or.inr ⟨List.mem_cons_of_mem _ ((List.dropWhile_sublist p).subset hm), hpc⟩
      · rw [if_neg hp] at hc
        rcases List.mem_cons.mp hc with rfl | hc'
        · exact Or.inr ⟨List.mem_cons_self _ _, by simpa using hp⟩
        · have hlen : t.length ≤ n := by
            simp only [List.length_cons] at hl
            omega
          rcases ih t hlen c hc' with h | ⟨hm, hpc⟩
          · exact Or.inl h
          · exact Or.inr ⟨List.mem_cons_of_mem _ hm, hpc⟩

theorem mem_collapseRuns (p : Char → Bool) (r : Char) (l : List Char) (c : Char)
    (hc : c ∈ collapseRuns p r l) : c = r ∨ (c ∈ l ∧ p c = false) :=
  mem_collapseRuns_aux p r l.length l le_rfl c hc

theorem mem_jsTrim (l : List Char) (c : Char) (h : c ∈ jsTrim l) : c ∈ l := by
  unfold jsTrim at h
  rw [List.mem_reverse] at h
  have h2 := (List.dropWhile_sublist isJsSpace).subset h
  rw [List.mem_reverse] at h2
  exact (List.dropWhile_sublist isJsSpace).subset h2

theorem sanitize_ascii (f : String) : ∀ c ∈ (sanitizeFilename f).data, c.toNat < 128 := by
  intro c hc
  have hc' : c ∈ jsTrim (collapseRuns (fun c => c = '_') '_'
      (collapseRuns isJsSpace '_'
        (f.data.map (fun c =>
          if isWordChar c || isJsSpace c || c == '.' || c == '-' then c else '_')))) := hc
  have h3 := mem_jsTrim _ _ hc'
  rcases mem_collapseRuns _ _ _ _ h3 with rfl | ⟨h2, _⟩
  · decide
  rcases mem_collapseRuns _ _ _ _ h2 with rfl | ⟨h1, hns⟩
  · decide
  rcases List.mem_map.mp h1 with ⟨a, ha, hae⟩
  by_cases hcond : (isWordChar a || isJsSpace a || a == '.' || a == '-') = true
  · rw [if_pos hcond] at hae
    subst hae
    simp only [Bool.or_eq_true, beq_iff_eq] at hcond
    rcases hcond with ((hw | hs) | hd) | hd
    · unfold isWordChar at hw
      simp only [Bool.or_eq_true, Bool.and_eq_true, decide_eq_true_eq] at hw
      omega
    · rw [hs] at hns
      simp at hns
    · rw [hd]
      decide
    · rw [hd]
      decide
  · rw [if_neg hcond] at hae
    subst hae
    decide

/-- C9: the ASCII fallback of the content-disposition (the output of
`sanitizeFilename`) contains only ASCII characters, and the
`filename*=UTF-8\x27\x27` form (the output of `encodeURIComponent`)
percent-decodes back to the original filename exactly. -/
theorem claim_C9 (f : String) :
    ((sanitizeFilename f).data.all (fun c => c.toNat < 128)) = true ∧
    decodeURIComponent (encodeURIComponent f) = some f := by
  refine ⟨?_, decodeURIComponent_encodeURIComponent f⟩
  rw [List.all_eq_true]
  intro c hcmem
  simpa using sanitize_ascii f c hcmem

theorem cmpFormat_le_iff (a b : VFormat) (ba bb va vb : Bool)
    (ha : a.hasAudio = JsFlag.bool ba) (hb : b.hasAudio = JsFlag.bool bb)
    (hva : isH264Flag a = JsFlag.bool va) (hvb : isH264Flag b = JsFlag.bool vb) :
    cmpFormat a b ≤ 0 ↔
      (natKey b < natKey a ∨ (natKey a = natKey b ∧ tbr0 b ≤ tbr0 a)) := by
  unfold cmpFormat natKey
  rw [ha, hb, hva, hvb]
  cases ba <;> cases bb <;> cases va <;> cases vb <;>
    by_cases m1 : a.ext = "mp4" <;> by_cases m2 : b.ext = "mp4" <;>
    simp [jsTruthy, m1, m2, beq_iff_eq, sub_nonpos]

theorem fmtLE_total_on (a b : VFormat) (hba : boolFlags a) (hbb : boolFlags b) :
    fmtLE a b ∨ fmtLE b a := by
  obtain ⟨⟨ba, ha⟩, ⟨va, hva⟩⟩ := hba
  obtain ⟨⟨bb, hb⟩, ⟨vb, hvb⟩⟩ := hbb
  unfold fmtLE
  rw [cmpFormat_le_iff a b ba bb va vb ha hb hva hvb,
    cmpFormat_le_iff b a bb ba vb va hb ha hvb hva]
  rcases Nat.lt_trichotomy (natKey a) (natKey b) with h | h | h
  · exact Or.inr (Or.inl h)
  · rcases le_total (tbr0 b) (tbr0 a) with ht | ht
    · exact Or.inl (Or.inr ⟨h, ht⟩)
    · exact Or.inr (Or.inr ⟨h.symm, ht⟩)
  · exact Or.inl (Or.inl h)

theorem fmtLE_trans_on (a b c : VFormat) (hba : boolFlags a) (hbb : boolFlags b)
    (hbc : boolFlags c) (hab : fmtLE a b) (hbc2 : fmtLE b c) : fmtLE a c := by
  obtain ⟨⟨ba, ha⟩, ⟨va, hva⟩⟩ := hba
  obtain ⟨⟨bb, hb⟩, ⟨vb, hvb⟩⟩ := hbb
  obtain ⟨⟨bc, hc⟩, ⟨vc, hvc⟩⟩ := hbc
  unfold fmtLE at hab hbc2 ⊢
  rw [cmpFormat_le_iff a b ba bb va vb ha hb hva hvb] at hab
  rw [cmpFormat_le_iff b c bb bc vb vc hb hc hvb hvc] at hbc2
  rw [cmpFormat_le_iff a c ba bc va vc ha hc hva hvc]
  rcases hab with h1 | ⟨h1, h1q⟩ <;> rcases hbc2 with h2 | ⟨h2, h2q⟩
  · exact Or.inl (by omega)
  · exact Or.inl (by omega)
  · exact Or.inl (by omega)
  · exact Or.inr ⟨by omega, le_trans h2q h1q⟩

instance : IsTotal VFormat resLE :=
  ⟨fun _ _ => le_total _ _⟩

instance : IsTrans VFormat resLE :=
  ⟨fun _ _ _ hab hbc => le_trans hbc hab⟩

theorem pickBest_mem (fs : List VFormat) (g : VFormat) (h : pickBest fs = some g) :
    g ∈ fs := by
  unfold pickBest at h
  exact (List.perm_insertionSort fmtLE fs).subset
    (List.mem_of_mem_head? (Option.mem_def.mpr h))

theorem fmtLE_refl (a : VFormat) : fmtLE a a := by
  unfold fmtLE cmpFormat
  by_cases m : a.ext = "mp4" <;>
    by_cases t : jsTruthy a.hasAudio = true <;>
    simp [m, t, sub_nonpos, beq_iff_eq]

theorem insertionSort_head_min (P : VFormat → Prop)
    (htot : ∀ a b, P a → P b → fmtLE a b ∨ fmtLE b a)
    (htrans : ∀ a b c, P a → P b → P c → fmtLE a b → fmtLE b c → fmtLE a c) :
    ∀ (fs : List VFormat), (∀ f ∈ fs, P f) →
      ∀ g, (List.insertionSort fmtLE fs).head? = some g → ∀ f ∈ fs, fmtLE g f := by
  intro fs
  induction fs with
  | nil =>
    intro _ g hg
    simp [List.insertionSort] at hg
  | cons a t ih =>
    intro hP g hg f hf
    rw [List.insertionSort] at hg
    rcases hs : List.insertionSort fmtLE t with _ | ⟨b, s2⟩
    · rw [hs] at hg
      have ht : t = [] := by
        have hp := List.perm_insertionSort fmtLE t
        rw [hs] at hp
        exact hp.symm.eq_nil
      subst ht
      have hga : a = g := by simpa [List.orderedInsert] using hg
      rw [← hga]
      rcases List.mem_cons.mp hf with rfl | hft
      · exact fmtLE_refl _
      · simp at hft
    · rw [hs] at hg
      have hbmem : b ∈ t := by
        have hp := List.perm_insertionSort fmtLE t
        exact hp.subset (by rw [hs]; exact List.mem_cons_self _ _)
      have hbmin : ∀ x ∈ t, fmtLE b x :=
        ih (fun x hx => hP x (List.mem_cons_of_mem _ hx)) b (by rw [hs]; rfl)
      by_cases hab : fmtLE a b
      · rw [List.orderedInsert, if_pos hab] at hg
        have hga : a = g := by simpa using hg
        rw [← hga]
        rcases List.mem_cons.mp hf with rfl | hft
        · exact fmtLE_refl _
        · exact htrans a b f (hP a (List.mem_cons_self _ _))
            (hP b (List.mem_cons_of_mem _ hbmem)) (hP f (List.mem_cons_of_mem _ hft))
            hab (hbmin f hft)
      · rw [List.orderedInsert, if_neg hab] at hg
        have hgb : b = g := by simpa using hg
        rw [← hgb]
        rcases List.mem_cons.mp hf with rfl | hft
        · exact (htot f b (hP f (List.mem_cons_self _ _))
            (hP b (List.mem_cons_of_mem _ hbmem))).resolve_left hab
        · exact hbmin f hft

theorem pickBest_best (fs : List VFormat) (g : VFormat)
    (hall : ∀ f ∈ fs, boolFlags f) (h : pickBest fs = some g) :
    ∀ f ∈ fs, fmtLE g f := by
  unfold pickBest at h
  exact insertionSort_head_min boolFlags fmtLE_total_on fmtLE_trans_on fs hall g h

theorem fmtLE_iff_chainGE (a b : VFormat) (ba bb va vb : Bool)
    (ha : a.hasAudio = JsFlag.bool ba) (hb : b.hasAudio = JsFlag.bool bb)
    (hva : isH264Flag a = JsFlag.bool va) (hvb : isH264Flag b = JsFlag.bool vb) :
    fmtLE a b ↔ chainGE a b := by
  unfold fmtLE chainGE cmpFormat
  rw [ha, hb, hva, hvb]
  cases ba <;> cases bb <;> cases va <;> cases vb <;>
    by_cases m1 : a.ext = "mp4" <;> by_cases m2 : b.ext = "mp4" <;>
    simp [jsTruthy, m1, m2, beq_iff_eq, sub_nonpos]

/-- C7 counterexample: in a bucket mixing the two falsy `hasAudio` kinds
(a missing `acodec`, stored as raw `undefined`, versus `acodec: 'none'`,
stored as boolean `false`), the strict-inequality guard fires in *both*
argument orders and the comparator returns -1 both ways (it is
inconsistent); the sort then keeps the first element, a muted low-bitrate
VP9/webm entry, ahead of an H.264/mp4 entry that the tie-break chain
strictly prefers — the selected representative is not the chain maximum. -/
theorem claim_C7_counterexample :
    pickBest [sampleVp9Absent, sampleAvcNone] = some sampleVp9Absent ∧
    sampleAvcNone ∈ [sampleVp9Absent, sampleAvcNone] ∧
    ¬ chainGE sampleVp9Absent sampleAvcNone ∧
    cmpFormat sampleVp9Absent sampleAvcNone < 0 ∧
    cmpFormat sampleAvcNone sampleVp9Absent < 0 :=
  ⟨by decide, by decide, by decide, by decide, by decide⟩

/-- C7 (amended): within a resolution bucket all of whose entries carry
genuinely boolean comparator inputs — `hasAudio` and the `aIsH264` value
are booleans, i.e. every entry's `acodec` and `vcodec` are present and
nonempty — the comparator is a consistent total preorder and the selected
representative (`sortedFormats[0]`) is a maximum under the lexicographic
tie-break chain: embedded audio first, then the H.264 codec family, then
(among video-only entries) the MP4 container, then higher reported
bitrate.  When a bucket mixes falsy `hasAudio` kinds the comparator is
inconsistent and the selection need not be the chain maximum. -/
theorem claim_C7_amended (bucket : List VFormat) (g : VFormat)
    (hall : ∀ f ∈ bucket, boolFlags f) (h : pickBest bucket = some g) :
    g ∈ bucket ∧ ∀ f ∈ bucket, chainGE g f := by
  refine ⟨pickBest_mem bucket g h, fun f hf => ?_⟩
  obtain ⟨⟨bg, hg2⟩, ⟨vg, hvg⟩⟩ := hall g (pickBest_mem bucket g h)
  obtain ⟨⟨bf, hf2⟩, ⟨vf, hvf⟩⟩ := hall f hf
  exact (fmtLE_iff_chainGE g f bg bf vg vf hg2 hf2 hvg hvf).mp
    (pickBest_best bucket g hall h f hf)

/-- C7 witness: `claim_C7_amended` at a concrete two-element bucket of
boolean-flag entries, where the audio-carrying H.264 entry beats a
higher-bitrate muted VP9 entry. -/
theorem claim_C7_witness :
    sampleAvcAudio ∈ [sampleVp9Muted, sampleAvcAudio] ∧
    ∀ f ∈ [sampleVp9Muted, sampleAvcAudio], chainGE sampleAvcAudio f :=
  claim_C7_amended [sampleVp9Muted, sampleAvcAudio] sampleAvcAudio
    (by decide) (by decide)

theorem groupStep_inv (P : VFormat → Prop) (acc : List (String × List VFormat))
    (f : VFormat) (hP : P f)
    (hacc : ∀ p ∈ acc, ∀ g ∈ p.2, P g ∧ g.resolution = p.1) :
    ∀ p ∈ groupStep acc f, ∀ g ∈ p.2, P g ∧ g.resolution = p.1 := by
  unfold groupStep
  split
  · intro p hp g hg
    rcases List.mem_map.mp hp with ⟨q, hq, rfl⟩
    by_cases hk : (q.1 == f.resolution) = true
    · rw [if_pos hk] at hg ⊢
      rcases List.mem_append.mp hg with hg' | hg'
      · have := (hacc q hq g hg')
        exact ⟨this.1, this.2⟩
      · have hgf : g = f := by simpa using hg'
        subst hgf
        exact ⟨hP, (beq_iff_eq.mp hk).symm ▸ rfl⟩
    · rw [if_neg hk] at hg ⊢
      exact hacc q hq g hg
  · intro p hp g hg
    rcases List.mem_append.mp hp with hp' | hp'
    · exact hacc p hp' g hg
    · have hpe : p = (f.resolution, [f]) := by simpa using hp'
      subst hpe
      have hgf : g = f := by simpa using hg
      subst hgf
      exact ⟨hP, rfl⟩

theorem groupByRes_inv (P : VFormat → Prop) :
    ∀ (l : List VFormat) (acc : List (String × List VFormat)),
      (∀ f ∈ l, P f) →
      (∀ p ∈ acc, ∀ g ∈ p.2, P g ∧ g.resolution = p.1) →
      ∀ p ∈ l.foldl groupStep acc, ∀ g ∈ p.2, P g ∧ g.resolution = p.1 := by
  intro l
  induction l with
  | nil => intro acc _ hacc; simpa using hacc
  | cons f t ih =>
    intro acc hl hacc
    simp only [List.foldl_cons]
    exact ih (groupStep acc f) (fun x hx => hl x (List.mem_cons_of_mem _ hx))
      (groupStep_inv P acc f (hl f (List.mem_cons_self _ _)) hacc)

theorem groupStep_keys (acc : List (String × List VFormat)) (f : VFormat) :
    (groupStep acc f).map Prod.fst = acc.map Prod.fst ∨
    ((groupStep acc f).map Prod.fst = acc.map Prod.fst ++ [f.resolution] ∧
      f.resolution ∉ acc.map Prod.fst) := by
  unfold groupStep
  split
  · left
    rw [List.map_map]
    apply List.map_congr_left
    intro p _
    by_cases hk : (p.1 == f.resolution) = true
    · rw [Function.comp_apply, if_pos hk]
    · rw [Function.comp_apply, if_neg hk]
  · right
    constructor
    · simp
    · rename_i hany
      intro hmem
      apply hany
      rcases List.mem_map.mp hmem with ⟨p, hp, hpe⟩
      exact List.any_eq_true.mpr ⟨p, hp, by simp [hpe]⟩

theorem groupByRes_keys_nodup :
    ∀ (l : List VFormat) (acc : List (String × List VFormat)),
      (acc.map Prod.fst).Nodup →
      ((l.foldl groupStep acc).map Prod.fst).Nodup := by
  intro l
  induction l with
  | nil => intro acc h; simpa using h
  | cons f t ih =>
    intro acc hacc
    simp only [List.foldl_cons]
    apply ih
    rcases groupStep_keys acc f with h | ⟨h, hnm⟩
    · rw [h]; exact hacc
    · rw [h]
      rw [List.nodup_append]
      exact ⟨hacc, List.nodup_singleton _, by simpa using hnm⟩

theorem allVideoFormats_ladder (formats : List RawFormat) :
    ∀ g ∈ allVideoFormats formats,
      ∃ h ∈ majorResolutions, g.resolution = natLabel h := by
  intro g hg
  unfold allVideoFormats at hg
  rcases List.mem_map.mp hg with ⟨f, hf, rfl⟩
  have hfilter : strictVideoFilter f = true := List.of_mem_filter hf
  unfold strictVideoFilter at hfilter
  simp only [Bool.and_eq_true] at hfilter
  obtain ⟨⟨⟨⟨⟨_, _⟩, h3⟩, h4⟩, _⟩, _⟩ := hfilter
  rcases hh : f.height with _ | hv
  · rw [hh] at h3
    simp [truthyNat] at h3
  · rw [hh] at h4
    have hmem : hv ∈ majorResolutions := by
      simpa [List.contains_iff_exists_mem_beq] using h4
    refine ⟨hv, hmem, ?_⟩
    unfold mapVideoFormat
    rw [hh]

theorem mem_selected (bs : List (String × List VFormat)) (g : VFormat)
    (hg : g ∈ bs.filterMap (fun p => pickBest p.2)) :
    ∃ p ∈ bs, pickBest p.2 = some g ∧ g ∈ p.2 := by
  rcases List.mem_filterMap.mp hg with ⟨p, hp, hpk⟩
  exact ⟨p, hp, hpk, pickBest_mem _ _ hpk⟩

theorem selected_res_nodup :
    ∀ (bs : List (String × List VFormat)),
      ((bs.map Prod.fst).Nodup) →
      (∀ p ∈ bs, ∀ g ∈ p.2, g.resolution = p.1) →
      ((bs.filterMap (fun p => pickBest p.2)).map
        (fun g => g.resolution)).Nodup := by
  intro bs
  induction bs with
  | nil => intro _ _; simp
  | cons p bs' ih =>
    intro hnd hkey
    have hnd' : (bs'.map Prod.fst).Nodup := by
      rw [List.map_cons, List.nodup_cons] at hnd
      exact hnd.2
    have hp1 : p.1 ∉ bs'.map Prod.fst := by
      rw [List.map_cons, List.nodup_cons] at hnd
      exact hnd.1
    rcases hpk : pickBest p.2 with _ | g
    · rw [List.filterMap_cons]
      rw [hpk]
      exact ih hnd' (fun q hq => hkey q (List.mem_cons_of_mem _ hq))
    · rw [List.filterMap_cons, hpk, List.map_cons, List.nodup_cons]
      constructor
      · intro hmem
        rcases List.mem_map.mp hmem with ⟨g', hg', hge⟩
        rcases mem_selected bs' g' hg' with ⟨q, hq, _, hgq⟩
        have h1 : g'.resolution = q.1 := hkey q (List.mem_cons_of_mem _ hq) g' hgq
        have h2 : g.resolution = p.1 :=
          hkey p (List.mem_cons_self _ _) g (pickBest_mem _ _ hpk)
        apply hp1
        rw [← h2, ← hge, h1]
        exact List.mem_map_of_mem Prod.fst hq
      · exact ih hnd' (fun q hq => hkey q (List.mem_cons_of_mem _ hq))

theorem pn_natLabel : ∀ h ∈ majorResolutions, pn (natLabel h) = (h : ℚ) := by
  decide

/-- C6 (amended): when the strict primary pass yields at least one entry
(no fallback), the catalog's video entries are sorted by resolution
strictly descending and no two share a resolution label; the fallback
pass does not guarantee either property. -/
theorem claim_C6_amended (formats : List RawFormat)
    (hne : videoFormatsPrimary formats ≠ []) :
    (catalogVideoFormats formats).Pairwise
      (fun a b => pn b.resolution < pn a.resolution) ∧
    ((catalogVideoFormats formats).map (fun g => g.resolution)).Nodup := by
  have hcat : catalogVideoFormats formats = videoFormatsPrimary formats := by
    unfold catalogVideoFormats
    rw [if_neg (by simpa [List.isEmpty_iff] using hne)]
  rw [hcat]
  have hprim : videoFormatsPrimary formats =
      List.insertionSort resLE
        ((groupByRes (allVideoFormats formats)).filterMap (fun p => pickBest p.2)) := rfl
  rw [hprim]
  have hsort := List.sorted_insertionSort resLE
    ((groupByRes (allVideoFormats formats)).filterMap (fun p => pickBest p.2))
  have hperm := List.perm_insertionSort resLE
    ((groupByRes (allVideoFormats formats)).filterMap (fun p => pickBest p.2))
  have hkeys : ((groupByRes (allVideoFormats formats)).map Prod.fst).Nodup := by
    unfold groupByRes
    exact groupByRes_keys_nodup (allVideoFormats formats) [] (by simp)
  have hinv := groupByRes_inv
    (fun g => ∃ h ∈ majorResolutions, g.resolution = natLabel h)
    (allVideoFormats formats) [] (allVideoFormats_ladder formats) (by simp)
  have hselnodup := selected_res_nodup (groupByRes (allVideoFormats formats)) hkeys
    (fun p hp g hg => (hinv p (by simpa [groupByRes] using hp) g hg).2)
  have hprimnodup : ((List.insertionSort resLE
      ((groupByRes (allVideoFormats formats)).filterMap (fun p => pickBest p.2))).map
        (fun g => g.resolution)).Nodup :=
    (List.Perm.nodup_iff (hperm.map (fun g => g.resolution))).mpr hselnodup
  have hPmem : ∀ g ∈ List.insertionSort resLE
      ((groupByRes (allVideoFormats formats)).filterMap (fun p => pickBest p.2)),
      ∃ h ∈ majorResolutions, g.resolution = natLabel h := by
    intro g hg
    have hg' := hperm.subset hg
    rcases mem_selected _ _ hg' with ⟨p, hp, _, hgp⟩
    exact (hinv p (by simpa [groupByRes] using hp) g hgp).1
  refine ⟨?_, hprimnodup⟩
  have hpw1 : (List.insertionSort resLE
      ((groupByRes (allVideoFormats formats)).filterMap (fun p => pickBest p.2))).Pairwise
        resLE := hsort
  have hpw2 : (List.insertionSort resLE
      ((groupByRes (allVideoFormats formats)).filterMap (fun p => pickBest p.2))).Pairwise
        (fun a b => a.resolution ≠ b.resolution) := by
    rw [← List.pairwise_map]
    exact hprimnodup
  have hand := hpw1.and hpw2
  refine List.Pairwise.imp_of_mem ?_ hand
  intro a b ha hb hab
  rcases hPmem a ha with ⟨h1, hm1, he1⟩
  rcases hPmem b hb with ⟨h2, hm2, he2⟩
  rcases hab with ⟨hle, hneq⟩
  refine lt_of_le_of_ne hle ?_
  intro heq
  apply hneq
  rw [he1, he2]
  have hq1 : pn a.resolution = (h1 : ℚ) := by rw [he1]; exact pn_natLabel h1 hm1
  have hq2 : pn b.resolution = (h2 : ℚ) := by rw [he2]; exact pn_natLabel h2 hm2
  have : (h2 : ℚ) = (h1 : ℚ) := by rw [← hq1, ← hq2, heq]
  have hh : h2 = h1 := by exact_mod_cast this
  rw [hh]

/-- C6 witness: `claim_C6_amended` at a concrete two-entry catalog. -/
theorem claim_C6_witness :
    (catalogVideoFormats [rawLadder720, rawLadder1080]).Pairwise
      (fun a b => pn b.resolution < pn a.resolution) ∧
    ((catalogVideoFormats [rawLadder720, rawLadder1080]).map
      (fun g => g.resolution)).Nodup :=
  claim_C6_amended [rawLadder720, rawLadder1080] (by decide)

/-- C6 counterexample: with only off-ladder heights the fallback pass is
taken, and its entries come out in engine order — 500p before 600p (not
descending) — and can repeat a resolution label. -/
theorem claim_C6_counterexample :
    ((catalogVideoFormats [rawOff500a, rawOff600]).map (fun g => g.resolution)) =
      ["500p", "600p"] ∧
    ¬ (catalogVideoFormats [rawOff500a, rawOff600]).Pairwise
      (fun a b => pn b.resolution < pn a.resolution) ∧
    ((catalogVideoFormats [rawOff500a, rawOff600, rawOff500b]).map
      (fun g => g.resolution)) = ["500p", "600p", "500p"] ∧
    ¬ ((catalogVideoFormats [rawOff500a, rawOff600, rawOff500b]).map
        (fun g => g.resolution)).Nodup :=
  ⟨by decide, by decide, by decide, by decide⟩

end YtX
